import Mathlib

/-!
Filament mapping dialog: `src/slic3r/GUI/FilamentMappingDialog.hpp` and `.cpp`.

A shallow embedding of the assignment logic of `FilamentMappingDialog`:
`get_mapping`, `set_mapping`, `auto_match_filaments`, `reset_to_default` and the
duplicate check of `update_warnings`.

Modelling conventions.

* A `wxChoice` is reduced to the one piece of state the dialog reads and writes,
  its 0-based selection (`GetSelection` / `SetSelection`); a freshly created
  control has selection `wxNOT_FOUND = -1`.
* `std::vector` is a `List`; a counted `for` loop over `0 .. size-1` is a left
  fold over `List.range size`, and `v[i] = x` is `List.set`.
* `std::set<int>` is a list used through membership and insert-if-absent;
  `std::map<int,int>` is an association list kept in ascending key order, which
  is the order a range-`for` over the map visits it.
* `int` values are `Int`.  The dialog owns one widget per filament, so indices
  and counts stay far below `2^31`; `static_cast<int>(i)` is the plain
  injection of the index.  C++ `%` is truncated remainder, `Int.tmod`.
-/

namespace Slic3r.GUI

/-! ## Data model -/

/-- Information about a filament used in the project (`ProjectFilamentInfo`).
The colour is kept as an optional packed RGB value and the usage as a rational
number of grams; none of the mapping logic reads these fields. -/
structure ProjectFilamentInfo where
  index : Int := 0
  name : String := ""
  type : String := ""
  color : Option Nat := none
  usage_grams : Rat := 0

/-- The constant `wxNOT_FOUND`. -/
def wxNOT_FOUND : Int := -1

/-- A `wxChoice` control: only its current 0-based selection is modelled. -/
structure wxChoice where
  selection : Int := wxNOT_FOUND
deriving DecidableEq

/-- The call `choice->GetSelection()`. -/
def wxChoice.GetSelection (c : wxChoice) : Int := c.selection

/-- The call `choice->SetSelection(n)`. -/
def wxChoice.SetSelection (_c : wxChoice) (n : Int) : wxChoice := { selection := n }

/-- The warning label: its text and whether it is shown. -/
structure wxStaticText where
  label : String := ""
  shown : Bool := true

/-- The members of `FilamentMappingDialog` that the mapping logic touches. -/
structure FilamentMappingDialog where
  m_filaments : List ProjectFilamentInfo
  m_slot_count : Int
  m_slot_choices : List wxChoice
  m_warning_label : wxStaticText

/-! ## `std::map<int,int>` and `std::set<int>` -/

/-- The statement `slot_usage[slot]++` on a `std::map<int,int>`: a missing key
is value-initialised to `0` before the increment; keys stay in ascending
order. -/
def map_incr : List (Int × Int) → Int → List (Int × Int)
  | [], k => [(k, 1)]
  | (k', c) :: rest, k =>
    if k < k' then (k, 1) :: (k', c) :: rest
    else if k = k' then (k', c + 1) :: rest
    else (k', c) :: map_incr rest k

/-- The call `used_slots.insert(slot)` on a `std::set<int>`. -/
def set_insert (s : List Int) (k : Int) : List Int :=
  if k ∈ s then s else k :: s

/-! ## Operations -/

/-- The part of `create_ui` that matters here: one fresh `wxChoice` per
filament and a hidden, empty warning label. -/
def create_ui (d : FilamentMappingDialog) : FilamentMappingDialog :=
  { d with
    m_slot_choices := d.m_filaments.map (fun _ => ({} : wxChoice))
    m_warning_label := { label := "", shown := false } }

/-- `FilamentMappingDialog::get_mapping`: 0-based selection to 1-based slot. -/
def get_mapping (d : FilamentMappingDialog) : List Int :=
  d.m_slot_choices.foldl (fun mapping choice => mapping ++ [choice.GetSelection + 1]) []

/-- The first loop of `update_warnings`: slot -> count. -/
def slot_usage (d : FilamentMappingDialog) : List (Int × Int) :=
  d.m_slot_choices.foldl (fun usage choice => map_incr usage choice.GetSelection) []

/-- The second loop of `update_warnings`: the local vector `conflicts`. -/
def conflicts (d : FilamentMappingDialog) : List Int :=
  (slot_usage d).foldl
    (fun cs p => if p.2 > 1 then cs ++ [p.1 + 1] else cs) []

/-- The text put on the warning label for a non-empty conflict list. -/
def warning_text (cs : List Int) : String :=
  (List.range cs.length).foldl
    (fun warning i =>
      (if i > 0 then warning ++ ", " else warning) ++ "Slot " ++ toString (cs.getD i 0))
    "Warning: Multiple filaments mapped to same slot: "

/-- `FilamentMappingDialog::update_warnings`. -/
def update_warnings (d : FilamentMappingDialog) : FilamentMappingDialog :=
  let cs := conflicts d
  if cs.isEmpty then
    { d with m_warning_label := { d.m_warning_label with shown := false } }
  else
    { d with m_warning_label := { label := warning_text cs, shown := true } }

/-- The loop of `FilamentMappingDialog::set_mapping`. -/
def set_mapping_loop (d : FilamentMappingDialog) (mapping : List Int) : List wxChoice :=
  (List.range (min d.m_slot_choices.length mapping.length)).foldl
    (fun choices i =>
      let slot := mapping.getD i 0
      if slot ≥ 1 ∧ slot ≤ d.m_slot_count then
        choices.set i ((choices.getD i {}).SetSelection (slot - 1))
      else choices)
    d.m_slot_choices

/-- `FilamentMappingDialog::set_mapping`. -/
def set_mapping (d : FilamentMappingDialog) (mapping : List Int) : FilamentMappingDialog :=
  update_warnings { d with m_slot_choices := set_mapping_loop d mapping }

/-- The locals `assignment` and `used_slots` of `auto_match_filaments`. -/
structure AutoMatch where
  assignment : List Int
  used_slots : List Int

/-- First pass of `auto_match_filaments`: the preferred slot is the index. -/
def first_pass (d : FilamentMappingDialog) : AutoMatch :=
  (List.range d.m_filaments.length).foldl
    (fun (st : AutoMatch) (i : Nat) =>
      let preferred_slot : Int := (i : Int)
      if preferred_slot < d.m_slot_count ∧ preferred_slot ∉ st.used_slots then
        { assignment := st.assignment.set i preferred_slot
          used_slots := set_insert st.used_slots preferred_slot }
      else st)
    { assignment := List.replicate d.m_filaments.length (-1), used_slots := [] }

/-- The inner loop of the second pass: the first slot in `0 .. m_slot_count-1`
that is not in `used_slots`, if there is one. -/
def first_unused_slot (m_slot_count : Int) (used_slots : List Int) : Option Int :=
  ((List.range m_slot_count.toNat).map (fun slot : Nat => (slot : Int))).find?
    (fun slot => decide (slot ∉ used_slots))

/-- Second pass of `auto_match_filaments`: remaining filaments take any
available slot. -/
def second_pass (d : FilamentMappingDialog) (st : AutoMatch) : AutoMatch :=
  (List.range d.m_filaments.length).foldl
    (fun st i =>
      if st.assignment.getD i 0 = -1 then
        match first_unused_slot d.m_slot_count st.used_slots with
        | some slot =>
          { assignment := st.assignment.set i slot
            used_slots := set_insert st.used_slots slot }
        | none => st
      else st)
    st

/-- Last loop of `auto_match_filaments`: apply the assignment, `-1` becoming
slot `0`. -/
def apply_assignment (d : FilamentMappingDialog) (assignment : List Int) : List wxChoice :=
  (List.range d.m_filaments.length).foldl
    (fun choices i =>
      let slot := if assignment.getD i 0 ≥ 0 then assignment.getD i 0 else 0
      choices.set i ((choices.getD i {}).SetSelection slot))
    d.m_slot_choices

/-- `FilamentMappingDialog::auto_match_filaments`. -/
def auto_match_filaments (d : FilamentMappingDialog) : FilamentMappingDialog :=
  { d with m_slot_choices := apply_assignment d (second_pass d (first_pass d)).assignment }

/-- `FilamentMappingDialog::reset_to_default`. -/
def reset_to_default (d : FilamentMappingDialog) : FilamentMappingDialog :=
  { d with
    m_slot_choices :=
      (List.range d.m_slot_choices.length).foldl
        (fun (choices : List wxChoice) (i : Nat) =>
          let slot := Int.tmod (i : Int) d.m_slot_count
          choices.set i ((choices.getD i {}).SetSelection slot))
        d.m_slot_choices }

/-- `FilamentMappingDialog::on_auto_match`. -/
def on_auto_match (d : FilamentMappingDialog) : FilamentMappingDialog :=
  update_warnings (auto_match_filaments d)

/-- `FilamentMappingDialog::on_reset`. -/
def on_reset (d : FilamentMappingDialog) : FilamentMappingDialog :=
  update_warnings (reset_to_default d)

/-- The constructor `FilamentMappingDialog::FilamentMappingDialog`: the slot
count is clamped with `std::max(1, slot_count)`, then `create_ui`,
`reset_to_default` and `update_warnings` run. -/
def construct (project_filaments : List ProjectFilamentInfo) (slot_count : Int) :
    FilamentMappingDialog :=
  update_warnings (reset_to_default (create_ui
    { m_filaments := project_filaments
      m_slot_count := max 1 slot_count
      m_slot_choices := []
      m_warning_label := {} }))

/-! ## The operations as a state machine -/

/-- The commands a caller can issue on a constructed dialog. -/
inductive Op where
  | reset : Op
  | autoMatch : Op
  | setMapping (values : List Int) : Op

/-- One command: the Reset button, the Auto Match button, or `set_mapping`. -/
def Op.apply : Op → FilamentMappingDialog → FilamentMappingDialog
  | Op.reset, d => on_reset d
  | Op.autoMatch, d => on_auto_match d
  | Op.setMapping values, d => set_mapping d values

/-- A finite sequence of commands, run in order. -/
def run (ops : List Op) (d : FilamentMappingDialog) : FilamentMappingDialog :=
  ops.foldl (fun d op => op.apply d) d

/-- The error taxonomy of the specification. -/
inductive CoreError where
  | InvalidInput : CoreError
  | IndexOutOfRange : CoreError
deriving DecidableEq

/-- The specification's `initialize(descriptors, slotCount)` as the source
realises it: the constructor.  It has no failing path (no `throw`, no early
return), so the result is always a dialog. -/
def init_dialog (descriptors : List ProjectFilamentInfo) (slotCount : Int) :
    Except CoreError FilamentMappingDialog :=
  Except.ok (construct descriptors slotCount)

/-- A sample filament descriptor `T<i>`. -/
def sample_filament (i : Int) : ProjectFilamentInfo :=
  { index := i, name := "Generic PLA", type := "PLA" }

/-- Five filaments on a three-slot printer. -/
def dialog_5_3 : FilamentMappingDialog :=
  construct [sample_filament 0, sample_filament 1, sample_filament 2, sample_filament 3,
    sample_filament 4] 3

/-- Three filaments on a four-slot printer. -/
def dialog_3_4 : FilamentMappingDialog :=
  construct [sample_filament 0, sample_filament 1, sample_filament 2] 4

/-- Three filaments on a two-slot printer. -/
def dialog_3_2 : FilamentMappingDialog :=
  construct [sample_filament 0, sample_filament 1, sample_filament 2] 2

/-- The class invariant of a constructed dialog: a slot count of at least 1,
one control per filament, and every mapping entry in `[1, m_slot_count]`. -/
def WellFormed (d : FilamentMappingDialog) : Prop :=
  1 ≤ d.m_slot_count ∧ d.m_slot_choices.length = d.m_filaments.length ∧
    ∀ x ∈ get_mapping d, 1 ≤ x ∧ x ≤ d.m_slot_count

/-- Reading `slot_usage[k]` without inserting: the count stored under `k`, and
`0` when the key is absent.  Used only to state facts about `map_incr`. -/
def usage_at : List (Int × Int) → Int → Int
  | [], _ => 0
  | (k', c) :: rest, k => if k' = k then c else usage_at rest k

/-! ## Auxiliary facts about the loops -/

/-- A counted loop that conditionally overwrites position `i` with `g i` is an
indexed map. -/
theorem foldl_set_range {α : Type} (p : Nat → Prop) [DecidablePred p] (g : Nat → α)
    (l : List α) (k : Nat) :
    (List.range k).foldl (fun cs i => if p i then cs.set i (g i) else cs) l
      = l.mapIdx (fun j x => if j < k ∧ p j then g j else x) := by
  induction k with
  | zero =>
    apply List.ext_getElem?
    intro j
    simp [List.getElem?_mapIdx]
  | succ k ih =>
    rw [List.range_succ, List.foldl_append, ih]
    simp only [List.foldl_cons, List.foldl_nil]
    apply List.ext_getElem?
    intro j
    by_cases hp : p k
    · simp only [hp, if_true, List.getElem?_set, List.getElem?_mapIdx, List.length_mapIdx]
      by_cases hkj : k = j
      · subst hkj
        by_cases hlt : k < l.length
        · simp [hlt, hp, List.getElem?_eq_getElem hlt]
        · simp [hlt, List.getElem?_eq_none (Nat.le_of_not_lt hlt)]
      · simp only [hkj, if_false]
        cases l[j]? with
        | none => rfl
        | some x =>
          have : (j < k + 1 ∧ p j) ↔ (j < k ∧ p j) := by
            constructor
            · rintro ⟨h1, h2⟩; exact ⟨by omega, h2⟩
            · rintro ⟨h1, h2⟩; exact ⟨by omega, h2⟩
          simp [this]
    · simp only [hp, if_false, List.getElem?_mapIdx]
      cases l[j]? with
      | none => rfl
      | some x =>
        have : (j < k + 1 ∧ p j) ↔ (j < k ∧ p j) := by
          constructor
          · rintro ⟨h1, h2⟩
            refine ⟨?_, h2⟩
            rcases Nat.lt_succ_iff_lt_or_eq.mp h1 with h | h
            · exact h
            · subst h; exact absurd h2 hp
          · rintro ⟨h1, h2⟩; exact ⟨by omega, h2⟩
        simp [this]

/-- The result of `get_mapping` is the selection of each control plus one. -/
theorem get_mapping_eq_map (d : FilamentMappingDialog) :
    get_mapping d = d.m_slot_choices.map (fun c => c.selection + 1) := by
  unfold get_mapping
  simp only [wxChoice.GetSelection]
  have h : ∀ (l : List wxChoice) (acc : List Int),
      l.foldl (fun mapping choice => mapping ++ [choice.selection + 1]) acc
        = acc ++ l.map (fun c => c.selection + 1) := by
    intro l
    induction l with
    | nil => intro acc; simp
    | cons c l ih => intro acc; simp [ih]
  simpa using h d.m_slot_choices []

@[simp]
theorem update_warnings_choices (d : FilamentMappingDialog) :
    (update_warnings d).m_slot_choices = d.m_slot_choices := by
  by_cases h : (conflicts d).isEmpty <;> simp [update_warnings, h]

@[simp]
theorem update_warnings_slot_count (d : FilamentMappingDialog) :
    (update_warnings d).m_slot_count = d.m_slot_count := by
  by_cases h : (conflicts d).isEmpty <;> simp [update_warnings, h]

@[simp]
theorem update_warnings_filaments (d : FilamentMappingDialog) :
    (update_warnings d).m_filaments = d.m_filaments := by
  by_cases h : (conflicts d).isEmpty <;> simp [update_warnings, h]

@[simp]
theorem get_mapping_update_warnings (d : FilamentMappingDialog) :
    get_mapping (update_warnings d) = get_mapping d := by
  simp [get_mapping]

/-- Closed form of the controls after `reset_to_default`. -/
theorem reset_to_default_choices (d : FilamentMappingDialog) :
    (reset_to_default d).m_slot_choices
      = d.m_slot_choices.mapIdx
          (fun j _ => ({ selection := Int.tmod (j : Int) d.m_slot_count } : wxChoice)) := by
  unfold reset_to_default
  simp only [wxChoice.SetSelection]
  have h := foldl_set_range (fun _ => True)
    (fun j => ({ selection := Int.tmod (j : Int) d.m_slot_count } : wxChoice))
    d.m_slot_choices d.m_slot_choices.length
  simp only [if_true] at h
  rw [h]
  apply List.ext_getElem?
  intro j
  simp only [List.getElem?_mapIdx]
  by_cases hj : j < d.m_slot_choices.length
  · simp [List.getElem?_eq_getElem hj, hj]
  · simp [List.getElem?_eq_none (Nat.le_of_not_lt hj)]

/-- Closed form of the controls after the loop of `set_mapping`. -/
theorem set_mapping_loop_eq (d : FilamentMappingDialog) (mapping : List Int) :
    set_mapping_loop d mapping
      = d.m_slot_choices.mapIdx
          (fun j c =>
            if j < mapping.length ∧ (mapping.getD j 0 ≥ 1 ∧ mapping.getD j 0 ≤ d.m_slot_count)
            then ({ selection := mapping.getD j 0 - 1 } : wxChoice) else c) := by
  unfold set_mapping_loop
  simp only [wxChoice.SetSelection]
  rw [foldl_set_range (fun i => mapping.getD i 0 ≥ 1 ∧ mapping.getD i 0 ≤ d.m_slot_count)
    (fun i => ({ selection := mapping.getD i 0 - 1 } : wxChoice))]
  apply List.ext_getElem?
  intro j
  simp only [List.getElem?_mapIdx]
  by_cases hj : j < d.m_slot_choices.length
  · simp only [List.getElem?_eq_getElem hj, Option.map_some']
    have : (j < min d.m_slot_choices.length mapping.length) ↔ j < mapping.length := by
      simp [hj]
    simp only [this]
  · simp [List.getElem?_eq_none (Nat.le_of_not_lt hj)]

/-! ## The `std::map` of slot usage -/

theorem usage_at_eq_zero_of_lt (m : List (Int × Int)) (k : Int)
    (h : ∀ p ∈ m, k < p.1) : usage_at m k = 0 := by
  induction m with
  | nil => rfl
  | cons p m ih =>
    obtain ⟨k', c⟩ := p
    have h1 : k < k' := h (k', c) (by simp)
    have h2 : k' ≠ k := by omega
    simp only [usage_at, h2, if_false]
    exact ih (fun q hq => h q (by simp [hq]))

theorem map_incr_keys (m : List (Int × Int)) (k : Int) :
    ∀ p ∈ map_incr m k, p.1 = k ∨ p.1 ∈ m.map Prod.fst := by
  induction m with
  | nil => intro p hp; simp [map_incr] at hp; simp [hp]
  | cons q m ih =>
    obtain ⟨k', c⟩ := q
    intro p hp
    unfold map_incr at hp
    split_ifs at hp with h1 h2
    · rcases List.mem_cons.mp hp with h | h
      · left; rw [h]
      · right
        rcases List.mem_cons.mp h with h | h
        · simp [h]
        · exact List.mem_map.mpr ⟨p, List.mem_cons_of_mem _ h, rfl⟩
    · rcases List.mem_cons.mp hp with h | h
      · right; simp [h]
      · right; exact List.mem_map.mpr ⟨p, List.mem_cons_of_mem _ h, rfl⟩
    · rcases List.mem_cons.mp hp with h | h
      · right; simp [h]
      · rcases ih p h with h | h
        · left; exact h
        · right; simp only [List.map_cons, List.mem_cons]; right; exact h

theorem map_incr_sorted (m : List (Int × Int)) (k : Int)
    (hs : (m.map Prod.fst).Pairwise (· < ·)) :
    ((map_incr m k).map Prod.fst).Pairwise (· < ·) := by
  induction m with
  | nil => simp [map_incr]
  | cons q m ih =>
    obtain ⟨k', c⟩ := q
    simp only [List.map_cons, List.pairwise_cons] at hs
    obtain ⟨hlt, hrest⟩ := hs
    unfold map_incr
    split_ifs with h1 h2
    · simp only [List.map_cons, List.pairwise_cons, List.mem_cons]
      refine ⟨?_, hlt, hrest⟩
      rintro a (ha | ha)
      · rw [ha]; exact h1
      · exact lt_trans h1 (hlt a ha)
    · simp only [List.map_cons, List.pairwise_cons]
      exact ⟨hlt, hrest⟩
    · simp only [List.map_cons, List.pairwise_cons]
      refine ⟨?_, ih hrest⟩
      intro a ha
      obtain ⟨p, hp, rfl⟩ := List.mem_map.mp ha
      rcases map_incr_keys m k p hp with h | h
      · rw [h]; omega
      · exact hlt _ h

theorem usage_at_map_incr (m : List (Int × Int)) (k k' : Int)
    (hs : (m.map Prod.fst).Pairwise (· < ·)) :
    usage_at (map_incr m k) k' = usage_at m k' + (if k' = k then 1 else 0) := by
  induction m with
  | nil =>
    by_cases h : k' = k
    · simp [map_incr, usage_at, h]
    · have h' : ¬ k = k' := fun e => h e.symm
      simp [map_incr, usage_at, h, h']
  | cons q m ih =>
    obtain ⟨k0, c⟩ := q
    simp only [List.map_cons, List.pairwise_cons] at hs
    obtain ⟨hlt, hrest⟩ := hs
    have hz : ∀ x, x < k0 → usage_at m x = 0 := fun x hx =>
      usage_at_eq_zero_of_lt m x
        (fun p hp => lt_trans hx (hlt _ (List.mem_map.mpr ⟨p, hp, rfl⟩)))
    unfold map_incr
    by_cases h1 : k < k0
    · simp only [h1, if_true]
      by_cases h3 : k' = k
      · subst h3
        have h0 : ¬ k0 = k' := by omega
        simp [usage_at, h0, hz k' h1]
      · have h' : ¬ k = k' := fun e => h3 e.symm
        simp [usage_at, h', h3]
    · simp only [h1, if_false]
      by_cases h2 : k = k0
      · subst h2
        by_cases h4 : k' = k
        · subst h4; simp [usage_at]
        · have h' : ¬ k = k' := fun e => h4 e.symm
          simp [usage_at, h', h4]
      · simp only [h2, if_false]
        by_cases h6 : k0 = k'
        · have h7 : ¬ k' = k := by omega
          simp [usage_at, h6, h7]
        · simp only [usage_at, h6, if_false]
          exact ih hrest

theorem mem_of_usage_at_ne_zero (m : List (Int × Int)) (k : Int)
    (h : usage_at m k ≠ 0) : (k, usage_at m k) ∈ m := by
  induction m with
  | nil => simp [usage_at] at h
  | cons q m ih =>
    obtain ⟨k0, c⟩ := q
    by_cases h1 : k0 = k
    · subst h1; simp [usage_at]
    · simp only [usage_at, h1, if_false] at h ⊢
      exact List.mem_cons_of_mem _ (ih h)

theorem usage_at_of_mem (m : List (Int × Int))
    (hs : (m.map Prod.fst).Pairwise (· < ·)) (p : Int × Int) (hp : p ∈ m) :
    usage_at m p.1 = p.2 := by
  induction m with
  | nil => simp at hp
  | cons q m ih =>
    obtain ⟨k0, c⟩ := q
    simp only [List.map_cons, List.pairwise_cons] at hs
    obtain ⟨hlt, hrest⟩ := hs
    rcases List.mem_cons.mp hp with h | h
    · rw [h]; simp [usage_at]
    · have h1 : k0 < p.1 := hlt _ (List.mem_map.mpr ⟨p, h, rfl⟩)
      have h2 : ¬ k0 = p.1 := by omega
      simp only [usage_at, h2, if_false]
      exact ih hrest h

/-- Folding `map_incr` over a list of keys keeps the keys ascending and stores
under each key the number of its occurrences. -/
theorem foldl_map_incr (keys : List Int) :
    ∀ acc : List (Int × Int), (acc.map Prod.fst).Pairwise (· < ·) →
      ((keys.foldl map_incr acc).map Prod.fst).Pairwise (· < ·) ∧
      ∀ k, usage_at (keys.foldl map_incr acc) k = usage_at acc k + (keys.count k : Int) := by
  induction keys with
  | nil => intro acc hacc; simp [hacc]
  | cons a keys ih =>
    intro acc hacc
    simp only [List.foldl_cons]
    obtain ⟨h1, h2⟩ := ih (map_incr acc a) (map_incr_sorted acc a hacc)
    refine ⟨h1, ?_⟩
    intro k
    rw [h2 k, usage_at_map_incr acc a k hacc, List.count_cons]
    by_cases h : k = a
    · subst h; simp; ring
    · have h' : ¬ a = k := fun e => h e.symm
      simp [h, h']

theorem slot_usage_eq (d : FilamentMappingDialog) :
    slot_usage d = (d.m_slot_choices.map (fun c => c.selection)).foldl map_incr [] := by
  unfold slot_usage
  simp only [wxChoice.GetSelection]
  rw [List.foldl_map]

theorem conflicts_eq (d : FilamentMappingDialog) :
    conflicts d
      = ((slot_usage d).filter (fun p => decide (p.2 > 1))).map (fun p => p.1 + 1) := by
  unfold conflicts
  have h : ∀ (l : List (Int × Int)) (acc : List Int),
      l.foldl (fun cs p => if p.2 > 1 then cs ++ [p.1 + 1] else cs) acc
        = acc ++ (l.filter (fun p => decide (p.2 > 1))).map (fun p => p.1 + 1) := by
    intro l
    induction l with
    | nil => intro acc; simp
    | cons q l ih =>
      intro acc
      by_cases hq : q.2 > 1
      · simp [ih, hq, List.filter_cons]
      · simp [ih, hq, List.filter_cons]
  simpa using h (slot_usage d) []

/-- The conflict list is strictly ascending. -/
theorem conflicts_sorted (d : FilamentMappingDialog) :
    (conflicts d).Sorted (· < ·) := by
  rw [conflicts_eq, slot_usage_eq]
  have hs := (foldl_map_incr (d.m_slot_choices.map (fun c => c.selection)) [] (by simp)).1
  unfold List.Sorted
  rw [List.pairwise_map] at hs ⊢
  refine (hs.filter _).imp ?_
  intro a b hab
  omega

/-- A slot is reported exactly when more than one entry of the mapping equals it. -/
theorem mem_conflicts (d : FilamentMappingDialog) (s : Int) :
    s ∈ conflicts d ↔ 1 < (get_mapping d).count s := by
  rw [conflicts_eq, slot_usage_eq, get_mapping_eq_map]
  obtain ⟨hs, hc⟩ := foldl_map_incr (d.m_slot_choices.map (fun c => c.selection)) [] (by simp)
  have hcount : (d.m_slot_choices.map (fun c => c.selection + 1)).count s
      = (d.m_slot_choices.map (fun c => c.selection)).count (s - 1) := by
    have e : (d.m_slot_choices.map (fun c => c.selection + 1))
        = (d.m_slot_choices.map (fun c => c.selection)).map (fun x => x + 1) := by
      simp [List.map_map, Function.comp_def]
    rw [e]
    have := List.count_map_of_injective (d.m_slot_choices.map (fun c => c.selection))
      (fun x : Int => x + 1) (fun a b hab => by simpa using hab) (s - 1)
    simpa using this
  rw [hcount]
  simp only [List.mem_map, List.mem_filter, decide_eq_true_eq]
  constructor
  · rintro ⟨p, ⟨hp, hgt⟩, rfl⟩
    have h1 := usage_at_of_mem _ hs p hp
    have h2 := hc p.1
    simp only [usage_at, zero_add] at h2
    have e : p.1 + 1 - 1 = p.1 := by ring
    rw [e]
    omega
  · intro h
    have hc' := hc (s - 1)
    simp only [usage_at, zero_add] at hc'
    have hne : usage_at (List.foldl map_incr [] (d.m_slot_choices.map (fun c => c.selection)))
        (s - 1) ≠ 0 := by omega
    refine ⟨_, ⟨mem_of_usage_at_ne_zero _ _ hne, ?_⟩, ?_⟩
    · simp only; omega
    · simp

/-! ## The two passes of `auto_match_filaments` -/

/-- The slots claimed by the first `k` iterations of the first pass, in the
order `set_insert` leaves them. -/
theorem first_pass_upto (d : FilamentMappingDialog) (k : Nat) :
    (List.range k).foldl
      (fun (st : AutoMatch) (i : Nat) =>
        let preferred_slot : Int := (i : Int)
        if preferred_slot < d.m_slot_count ∧ preferred_slot ∉ st.used_slots then
          { assignment := st.assignment.set i preferred_slot
            used_slots := set_insert st.used_slots preferred_slot }
        else st)
      { assignment := List.replicate d.m_filaments.length (-1), used_slots := [] }
    = { assignment :=
          (List.replicate d.m_filaments.length (-1 : Int)).mapIdx
            (fun j x => if j < k ∧ (j : Int) < d.m_slot_count then (j : Int) else x)
        used_slots :=
          (((List.range k).filter (fun j : Nat => decide ((j : Int) < d.m_slot_count))).map
            (fun j : Nat => (j : Int))).reverse } := by
  induction k with
  | zero =>
    simp only [List.range_zero, List.foldl_nil, List.filter_nil, List.map_nil,
      List.reverse_nil, AutoMatch.mk.injEq, and_true]
    apply List.ext_getElem?
    intro j
    simp [List.getElem?_mapIdx]
  | succ k ih =>
    rw [List.range_succ, List.foldl_append, ih]
    simp only [List.foldl_cons, List.foldl_nil]
    have hnot : (k : Int) ∉ (((List.range k).filter
        (fun j : Nat => decide ((j : Int) < d.m_slot_count))).map (fun j : Nat => (j : Int))).reverse := by
      simp only [List.mem_reverse, List.mem_map, List.mem_filter, List.mem_range, not_exists,
        not_and]
      intro x hx hxk
      omega
    by_cases hk : (k : Int) < d.m_slot_count
    · simp only [hk, hnot, not_false_eq_true, and_self, if_true, AutoMatch.mk.injEq]
      constructor
      · have := foldl_set_range (fun i : Nat => (i : Int) < d.m_slot_count)
          (fun i : Nat => (i : Int)) (List.replicate d.m_filaments.length (-1 : Int))
        rw [← this k, ← this (k + 1), List.range_succ, List.foldl_append]
        simp [hk]
      · simp [set_insert, hnot, List.filter_append, hk]
    · simp only [hk, false_and, if_false, AutoMatch.mk.injEq]
      constructor
      · have := foldl_set_range (fun i : Nat => (i : Int) < d.m_slot_count)
          (fun i : Nat => (i : Int)) (List.replicate d.m_filaments.length (-1 : Int))
        rw [← this k, ← this (k + 1), List.range_succ, List.foldl_append]
        simp [hk]
      · simp [List.filter_append, hk]

/-- Closed form of the state after the first pass. -/
theorem first_pass_eq (d : FilamentMappingDialog) :
    first_pass d
      = { assignment :=
            (List.range d.m_filaments.length).map
              (fun j : Nat => if (j : Int) < d.m_slot_count then (j : Int) else -1)
          used_slots :=
            (((List.range d.m_filaments.length).filter
              (fun j : Nat => decide ((j : Int) < d.m_slot_count))).map
                (fun j : Nat => (j : Int))).reverse } := by
  unfold first_pass
  rw [first_pass_upto]
  simp only [AutoMatch.mk.injEq, and_true]
  apply List.ext_getElem?
  intro j
  simp only [List.getElem?_mapIdx, List.getElem?_replicate, List.getElem?_map]
  by_cases hj : j < d.m_filaments.length
  · simp [hj, List.getElem?_range hj]
  · have : (List.range d.m_filaments.length)[j]? = none :=
      List.getElem?_eq_none (by simp; omega)
    simp [hj, this]

/-- Every filament the first pass left unassigned finds all slots claimed. -/
theorem first_unused_slot_after_first_pass (d : FilamentMappingDialog) (i : Nat)
    (hi : i < d.m_filaments.length) (hsc : ¬ (i : Int) < d.m_slot_count) :
    first_unused_slot d.m_slot_count (first_pass d).used_slots = none := by
  unfold first_unused_slot
  rw [List.find?_eq_none]
  intro s hs
  obtain ⟨x, hx, rfl⟩ := List.mem_map.mp hs
  have hx' : x < d.m_slot_count.toNat := List.mem_range.mp hx
  have hxs : (x : Int) < d.m_slot_count := by omega
  simp only [decide_eq_true_eq, not_not, first_pass_eq, List.mem_reverse, List.mem_map,
    List.mem_filter, List.mem_range]
  exact ⟨x, ⟨by omega, hxs⟩, rfl⟩

/-- The second pass never claims a slot: it returns the state of the first pass. -/
theorem second_pass_eq (d : FilamentMappingDialog) :
    second_pass d (first_pass d) = first_pass d := by
  unfold second_pass
  have h : ∀ k, k ≤ d.m_filaments.length →
      (List.range k).foldl
        (fun st i =>
          if st.assignment.getD i 0 = -1 then
            match first_unused_slot d.m_slot_count st.used_slots with
            | some slot =>
              { assignment := st.assignment.set i slot
                used_slots := set_insert st.used_slots slot }
            | none => st
          else st)
        (first_pass d) = first_pass d := by
    intro k
    induction k with
    | zero => intro _; rfl
    | succ k ih =>
      intro hk
      rw [List.range_succ, List.foldl_append, ih (by omega)]
      simp only [List.foldl_cons, List.foldl_nil]
      by_cases hsc : (k : Int) < d.m_slot_count
      · have hval : (first_pass d).assignment.getD k 0 ≠ -1 := by
          have hk' : k < d.m_filaments.length := by omega
          rw [first_pass_eq]
          simp [List.getD_eq_getElem?_getD, List.getElem?_range hk', hsc]
        simp only [hval, if_false]
      · rw [first_unused_slot_after_first_pass d k (by omega) hsc]
        simp
  exact h _ (le_refl _)

/-- Closed form of the controls after `auto_match_filaments`, for a dialog with
one control per filament. -/
theorem auto_match_choices (d : FilamentMappingDialog)
    (hn : d.m_slot_choices.length = d.m_filaments.length) :
    (auto_match_filaments d).m_slot_choices
      = (List.range d.m_filaments.length).map
          (fun j : Nat =>
            ({ selection := if (j : Int) < d.m_slot_count then (j : Int) else 0 } : wxChoice)) := by
  unfold auto_match_filaments apply_assignment
  simp only [wxChoice.SetSelection, second_pass_eq]
  have h := foldl_set_range (fun _ => True)
    (fun i => ({ selection :=
      if (first_pass d).assignment.getD i 0 ≥ 0 then (first_pass d).assignment.getD i 0 else 0 }
        : wxChoice))
    d.m_slot_choices d.m_filaments.length
  simp only [if_true] at h
  rw [h]
  apply List.ext_getElem?
  intro j
  simp only [List.getElem?_mapIdx, List.getElem?_map]
  by_cases hj : j < d.m_filaments.length
  · have hj' : j < d.m_slot_choices.length := by omega
    simp only [List.getElem?_eq_getElem hj', List.getElem?_range hj, Option.map_some', hj,
      true_and, if_true, first_pass_eq, List.getD_eq_getElem?_getD, List.getElem?_map,
      Option.getD_some]
    by_cases hsc : (j : Int) < d.m_slot_count
    · simp [hsc]
    · simp [hsc]
  · have h1 : d.m_slot_choices[j]? = none := List.getElem?_eq_none (by omega)
    have h2 : (List.range d.m_filaments.length)[j]? = none :=
      List.getElem?_eq_none (by simp; omega)
    simp [h1, h2]

/-! ## Closed forms of the mappings -/

theorem tmod_natCast (i : Nat) (sc : Int) (hsc : 1 ≤ sc) :
    Int.tmod (i : Int) sc = (i : Int) % sc :=
  Int.tmod_eq_emod (Int.ofNat_nonneg i) (by omega)

/-- The mapping read back after `reset_to_default`. -/
theorem get_mapping_reset (d : FilamentMappingDialog) :
    get_mapping (reset_to_default d)
      = (List.range d.m_slot_choices.length).map
          (fun i : Nat => Int.tmod (i : Int) d.m_slot_count + 1) := by
  rw [get_mapping_eq_map, reset_to_default_choices]
  apply List.ext_getElem?
  intro j
  simp only [List.getElem?_map, List.getElem?_mapIdx]
  by_cases hj : j < d.m_slot_choices.length
  · simp [List.getElem?_eq_getElem hj, List.getElem?_range hj]
  · have h1 : d.m_slot_choices[j]? = none := List.getElem?_eq_none (by omega)
    have h2 : (List.range d.m_slot_choices.length)[j]? = none :=
      List.getElem?_eq_none (by simp; omega)
    simp [h1, h2]

/-- The mapping read back after `auto_match_filaments`. -/
theorem get_mapping_auto_match (d : FilamentMappingDialog)
    (hn : d.m_slot_choices.length = d.m_filaments.length) :
    get_mapping (auto_match_filaments d)
      = (List.range d.m_filaments.length).map
          (fun i : Nat => if (i : Int) < d.m_slot_count then (i : Int) + 1 else 1) := by
  rw [get_mapping_eq_map, auto_match_choices d hn, List.map_map]
  apply List.map_congr_left
  intro i _
  by_cases h : (i : Int) < d.m_slot_count <;> simp [h]

/-- The mapping read back after `set_mapping`, position by position. -/
theorem get_mapping_set_mapping (d : FilamentMappingDialog) (values : List Int) (i : Nat) :
    (get_mapping (set_mapping d values))[i]?
      = if i < values.length ∧ (values.getD i 0 ≥ 1 ∧ values.getD i 0 ≤ d.m_slot_count)
        then (get_mapping d)[i]?.map (fun _ => values.getD i 0)
        else (get_mapping d)[i]? := by
  unfold set_mapping
  rw [get_mapping_update_warnings, get_mapping_eq_map, get_mapping_eq_map]
  simp only [set_mapping_loop_eq, List.getElem?_map, List.getElem?_mapIdx]
  cases d.m_slot_choices[i]? with
  | none => simp
  | some c =>
    simp only [Option.map_some']
    split_ifs <;> simp

theorem length_get_mapping (d : FilamentMappingDialog) :
    (get_mapping d).length = d.m_slot_choices.length := by
  rw [get_mapping_eq_map, List.length_map]

theorem reset_default_bounds (d : FilamentMappingDialog) (hsc : 1 ≤ d.m_slot_count) :
    ∀ x ∈ get_mapping (reset_to_default d),
      1 ≤ x ∧ x ≤ (reset_to_default d).m_slot_count := by
  have hpos : (0 : Int) < d.m_slot_count := by omega
  intro x hx
  rw [get_mapping_reset] at hx
  obtain ⟨i, _, rfl⟩ := List.mem_map.mp hx
  rw [tmod_natCast i _ hsc]
  have h1 := Int.emod_nonneg (i : Int) (ne_of_gt hpos)
  have h2 := Int.emod_lt_of_pos (i : Int) hpos
  show _ ∧ _ ≤ d.m_slot_count
  omega

/-! ## Default assignment -/

/-- C1: for a slot count of at least 1, the mapping read back by `get_mapping`
after `reset_to_default` has one entry per filament, the entry at 0-based
position `i` is `(i mod slotCount) + 1`, and every entry lies in
`[1, slotCount]`. -/
theorem reset_default_assignment (d : FilamentMappingDialog)
    (hsc : 1 ≤ d.m_slot_count)
    (hn : d.m_slot_choices.length = d.m_filaments.length) :
    (get_mapping (reset_to_default d)).length = d.m_filaments.length ∧
    (∀ i : Nat, i < d.m_filaments.length →
      (get_mapping (reset_to_default d))[i]? = some ((i : Int) % d.m_slot_count + 1)) ∧
    (∀ x ∈ get_mapping (reset_to_default d), 1 ≤ x ∧ x ≤ d.m_slot_count) := by
  have hpos : (0 : Int) < d.m_slot_count := by omega
  refine ⟨by rw [length_get_mapping]; simpa [reset_to_default_choices] using hn, ?_, ?_⟩
  · intro i hi
    rw [get_mapping_reset, hn, List.getElem?_map, List.getElem?_range hi]
    simp [tmod_natCast i _ hsc]
  · intro x hx
    rw [get_mapping_reset] at hx
    obtain ⟨i, _, rfl⟩ := List.mem_map.mp hx
    rw [tmod_natCast i _ hsc]
    have h1 := Int.emod_nonneg (i : Int) (ne_of_gt hpos)
    have h2 := Int.emod_lt_of_pos (i : Int) hpos
    omega

theorem reset_default_assignment_witness :
    (get_mapping (reset_to_default dialog_5_3)).length = dialog_5_3.m_filaments.length ∧
    (∀ i : Nat, i < dialog_5_3.m_filaments.length →
      (get_mapping (reset_to_default dialog_5_3))[i]?
        = some ((i : Int) % dialog_5_3.m_slot_count + 1)) ∧
    (∀ x ∈ get_mapping (reset_to_default dialog_5_3), 1 ≤ x ∧ x ≤ dialog_5_3.m_slot_count) :=
  reset_default_assignment dialog_5_3 (by decide) (by decide)

/-! ## Conflict detection -/

/-- C4: for every current mapping the conflict list computed by
`update_warnings` is strictly ascending, and it contains a 1-based slot id `s`
exactly when more than one filament is assigned to slot `s`. -/
theorem conflicts_ascending_and_exact (d : FilamentMappingDialog) :
    (conflicts d).Sorted (· < ·) ∧
    ∀ s : Int, s ∈ conflicts d ↔ 1 < (get_mapping d).count s :=
  ⟨conflicts_sorted d, mem_conflicts d⟩

/-- Two dialogs whose conflict lists have the same members report the same list. -/
theorem conflicts_ext (d₁ d₂ : FilamentMappingDialog)
    (h : ∀ s, s ∈ conflicts d₁ ↔ s ∈ conflicts d₂) : conflicts d₁ = conflicts d₂ :=
  List.eq_of_perm_of_sorted
    ((List.perm_ext_iff_of_nodup (conflicts_sorted d₁).nodup (conflicts_sorted d₂).nodup).mpr h)
    (conflicts_sorted d₁) (conflicts_sorted d₂)

/-- C9: conflict detection is symmetric in the filaments: two dialogs whose
mappings are permutations of each other report the same conflict list. -/
theorem conflicts_perm_invariant (d₁ d₂ : FilamentMappingDialog)
    (h : (get_mapping d₁).Perm (get_mapping d₂)) :
    conflicts d₁ = conflicts d₂ := by
  apply conflicts_ext
  intro s
  rw [mem_conflicts, mem_conflicts, h.count_eq s]

theorem conflicts_perm_invariant_witness :
    get_mapping (set_mapping dialog_3_2 [1, 1, 2]) = [1, 1, 2] ∧
    get_mapping (set_mapping dialog_3_2 [1, 2, 1]) = [1, 2, 1] ∧
    conflicts (set_mapping dialog_3_2 [1, 1, 2]) = [1] ∧
    conflicts (set_mapping dialog_3_2 [1, 2, 1]) = [1] ∧
    conflicts (set_mapping dialog_3_2 [1, 1, 2]) = conflicts (set_mapping dialog_3_2 [1, 2, 1]) :=
  ⟨by decide, by decide, by decide, by decide,
    conflicts_perm_invariant (set_mapping dialog_3_2 [1, 1, 2]) (set_mapping dialog_3_2 [1, 2, 1])
      (by
        have h₁ : get_mapping (set_mapping dialog_3_2 [1, 1, 2]) = [1, 1, 2] := by decide
        have h₂ : get_mapping (set_mapping dialog_3_2 [1, 2, 1]) = [1, 2, 1] := by decide
        rw [h₁, h₂]
        exact List.Perm.cons 1 (List.Perm.swap 2 1 []))⟩

/-! ## `set_mapping` -/

/-- C5: `set_mapping` keeps the length of the mapping; entry `i` becomes
`values[i]` when `i` is an index of `values` and `values[i]` lies in
`[1, slotCount]`, and keeps its prior value otherwise. -/
theorem set_mapping_entrywise (d : FilamentMappingDialog) (values : List Int) :
    (get_mapping (set_mapping d values)).length = (get_mapping d).length ∧
    ∀ i : Nat, i < (get_mapping d).length →
      (get_mapping (set_mapping d values))[i]?
        = if i < values.length ∧ 1 ≤ values.getD i 0 ∧ values.getD i 0 ≤ d.m_slot_count
          then some (values.getD i 0) else (get_mapping d)[i]? := by
  constructor
  · rw [length_get_mapping, length_get_mapping]
    simp [set_mapping, set_mapping_loop_eq]
  · intro i hi
    rw [get_mapping_set_mapping, List.getElem?_eq_getElem hi]
    simp

/-! ## Automatic assignment -/

/-- C10: closed form of `auto_match_filaments`.  Whatever the descriptors and
the prior selections, the fill pass returns the state of the first pass
unchanged, every filament left unassigned by the first pass has an index of at
least `slotCount` while all slots `0 .. slotCount-1` are claimed, and the
resulting mapping has `i + 1` at position `i < slotCount` and `1` elsewhere. -/
theorem auto_match_closed_form (d : FilamentMappingDialog)
    (hn : d.m_slot_choices.length = d.m_filaments.length) :
    get_mapping (auto_match_filaments d)
      = (List.range d.m_filaments.length).map
          (fun i : Nat => if (i : Int) < d.m_slot_count then (i : Int) + 1 else 1) ∧
    second_pass d (first_pass d) = first_pass d ∧
    ∀ i : Nat, i < d.m_filaments.length → (first_pass d).assignment.getD i 0 = -1 →
      d.m_slot_count ≤ (i : Int) ∧
      ∀ slot : Int, 0 ≤ slot → slot < d.m_slot_count → slot ∈ (first_pass d).used_slots := by
  refine ⟨get_mapping_auto_match d hn, second_pass_eq d, ?_⟩
  intro i hi hunassigned
  have hge : d.m_slot_count ≤ (i : Int) := by
    by_contra hlt
    have hlt' : (i : Int) < d.m_slot_count := by omega
    rw [first_pass_eq] at hunassigned
    simp [List.getD_eq_getElem?_getD, List.getElem?_range hi, hlt'] at hunassigned
  refine ⟨hge, ?_⟩
  intro slot h0 hlt
  rw [first_pass_eq]
  simp only [List.mem_reverse, List.mem_map, List.mem_filter, List.mem_range, decide_eq_true_eq]
  refine ⟨slot.toNat, ⟨by omega, by omega⟩, by omega⟩

theorem auto_match_closed_form_witness :
    get_mapping (auto_match_filaments (set_mapping dialog_5_3 [3, 3, 1, 2, 2]))
      = [1, 2, 3, 1, 1] ∧
    (get_mapping (auto_match_filaments (set_mapping dialog_5_3 [3, 3, 1, 2, 2]))
      = (List.range (set_mapping dialog_5_3 [3, 3, 1, 2, 2]).m_filaments.length).map
          (fun i : Nat =>
            if (i : Int) < (set_mapping dialog_5_3 [3, 3, 1, 2, 2]).m_slot_count
            then (i : Int) + 1 else 1) ∧
    second_pass (set_mapping dialog_5_3 [3, 3, 1, 2, 2])
        (first_pass (set_mapping dialog_5_3 [3, 3, 1, 2, 2]))
      = first_pass (set_mapping dialog_5_3 [3, 3, 1, 2, 2]) ∧
    ∀ i : Nat, i < (set_mapping dialog_5_3 [3, 3, 1, 2, 2]).m_filaments.length →
      (first_pass (set_mapping dialog_5_3 [3, 3, 1, 2, 2])).assignment.getD i 0 = -1 →
      (set_mapping dialog_5_3 [3, 3, 1, 2, 2]).m_slot_count ≤ (i : Int) ∧
      ∀ slot : Int, 0 ≤ slot → slot < (set_mapping dialog_5_3 [3, 3, 1, 2, 2]).m_slot_count →
        slot ∈ (first_pass (set_mapping dialog_5_3 [3, 3, 1, 2, 2])).used_slots) :=
  ⟨by decide, auto_match_closed_form (set_mapping dialog_5_3 [3, 3, 1, 2, 2]) (by decide)⟩

/-- C2: when there are at most as many filaments as slots, the mapping
produced by `auto_match_filaments` assigns no slot twice, and the conflict list
computed from it is empty. -/
theorem auto_match_conflict_free (d : FilamentMappingDialog)
    (hn : d.m_slot_choices.length = d.m_filaments.length)
    (hle : (d.m_filaments.length : Int) ≤ d.m_slot_count) :
    (get_mapping (auto_match_filaments d)).Nodup ∧
    conflicts (auto_match_filaments d) = [] ∧
    conflicts (on_auto_match d) = [] := by
  have hmap : get_mapping (auto_match_filaments d)
      = (List.range d.m_filaments.length).map (fun i : Nat => (i : Int) + 1) := by
    rw [get_mapping_auto_match d hn]
    apply List.map_congr_left
    intro i hi
    have : (i : Int) < d.m_slot_count := by
      have := List.mem_range.mp hi
      omega
    simp [this]
  have hnodup : (get_mapping (auto_match_filaments d)).Nodup := by
    rw [hmap]
    exact (List.nodup_range _).map (fun a b hab => by simpa using hab)
  have hnil : conflicts (auto_match_filaments d) = [] := by
    rw [List.eq_nil_iff_forall_not_mem]
    intro s hs
    rw [mem_conflicts] at hs
    have := List.nodup_iff_count_le_one.mp hnodup s
    omega
  refine ⟨hnodup, hnil, ?_⟩
  rw [← hnil]
  apply conflicts_ext
  intro s
  rw [mem_conflicts, mem_conflicts, on_auto_match, get_mapping_update_warnings]

theorem auto_match_conflict_free_witness :
    get_mapping (auto_match_filaments dialog_3_4) = [1, 2, 3] ∧
    ((get_mapping (auto_match_filaments dialog_3_4)).Nodup ∧
      conflicts (auto_match_filaments dialog_3_4) = [] ∧
      conflicts (on_auto_match dialog_3_4) = []) :=
  ⟨by decide, auto_match_conflict_free dialog_3_4 (by decide) (by decide)⟩

theorem length_filter_le_range (S n : Nat) :
    ((List.range n).filter (fun i : Nat => decide (S ≤ i))).length = n - S := by
  induction n with
  | zero => simp
  | succ n ih =>
    rw [List.range_succ, List.filter_append, List.length_append, ih]
    by_cases h : S ≤ n
    · simp [List.filter_cons, h]; omega
    · simp [List.filter_cons, h]; omega

/-- C3: when there are more filaments than slots, the mapping produced by
`auto_match_filaments` uses every slot `1 .. slotCount`, exactly
`n - slotCount` of its entries repeat the slot of an earlier entry, and `n`
minus the number of distinct slots used is `n - slotCount`. -/
theorem auto_match_excess (d : FilamentMappingDialog)
    (hsc : 1 ≤ d.m_slot_count)
    (hn : d.m_slot_choices.length = d.m_filaments.length)
    (hgt : d.m_slot_count < (d.m_filaments.length : Int)) :
    (∀ s : Int, 1 ≤ s → s ≤ d.m_slot_count → s ∈ get_mapping (auto_match_filaments d)) ∧
    ((((List.range d.m_filaments.length).filter
        (fun i : Nat => decide ((get_mapping (auto_match_filaments d)).getD i 0
          ∈ (get_mapping (auto_match_filaments d)).take i))).length : Int)
      = (d.m_filaments.length : Int) - d.m_slot_count) ∧
    ((d.m_filaments.length : Int) - ((get_mapping (auto_match_filaments d)).dedup.length : Int)
      = (d.m_filaments.length : Int) - d.m_slot_count) := by
  rw [get_mapping_auto_match d hn]
  generalize hneq : d.m_filaments.length = n at hgt
  generalize hsceq : d.m_slot_count = sc at hsc hgt
  have hmem : ∀ x : Int,
      x ∈ (List.range n).map (fun i : Nat => if (i : Int) < sc then (i : Int) + 1 else 1)
        ↔ 1 ≤ x ∧ x ≤ sc := by
    intro x
    simp only [List.mem_map, List.mem_range]
    constructor
    · rintro ⟨i, _, rfl⟩
      split_ifs with h
      · constructor <;> omega
      · constructor <;> omega
    · rintro ⟨h1, h2⟩
      refine ⟨(x - 1).toNat, by omega, ?_⟩
      have : ((x - 1).toNat : Int) < sc := by omega
      simp only [this, if_true]
      omega
  refine ⟨fun s h1 h2 => (hmem s).mpr ⟨h1, h2⟩, ?_, ?_⟩
  · have hfilter : (List.range n).filter
        (fun i : Nat => decide
          (((List.range n).map (fun i : Nat => if (i : Int) < sc then (i : Int) + 1 else 1)).getD i 0
            ∈ ((List.range n).map
                (fun i : Nat => if (i : Int) < sc then (i : Int) + 1 else 1)).take i))
        = (List.range n).filter (fun i : Nat => decide (sc.toNat ≤ i)) := by
      apply List.filter_congr
      intro i hi
      have hi' : i < n := List.mem_range.mp hi
      have htake : ((List.range n).map
            (fun i : Nat => if (i : Int) < sc then (i : Int) + 1 else 1)).take i
          = (List.range i).map (fun i : Nat => if (i : Int) < sc then (i : Int) + 1 else 1) := by
        rw [← List.map_take, List.take_range, min_eq_left (le_of_lt hi')]
      rw [htake]
      simp only [List.getD_eq_getElem?_getD, List.getElem?_map, List.getElem?_range hi',
        Option.map_some', Option.getD_some, List.mem_map, List.mem_range, decide_eq_decide]
      constructor
      · rintro ⟨j, hj, hjeq⟩
        by_contra hlt
        have h1 : (i : Int) < sc := by omega
        have h2 : (j : Int) < sc := by omega
        simp only [h1, h2, if_true] at hjeq
        omega
      · intro hge
        refine ⟨0, by omega, ?_⟩
        have h1 : ¬ (i : Int) < sc := by omega
        have h2 : ((0 : Nat) : Int) < sc := by omega
        simp [h1, h2]
    rw [hfilter, length_filter_le_range]
    omega
  · have hperm : ((List.range n).map
          (fun i : Nat => if (i : Int) < sc then (i : Int) + 1 else 1)).dedup.Perm
        ((List.range sc.toNat).map (fun i : Nat => (i : Int) + 1)) := by
      rw [List.perm_ext_iff_of_nodup (List.nodup_dedup _)
        ((List.nodup_range _).map (fun a b hab => by simpa using hab))]
      intro x
      rw [List.mem_dedup, hmem]
      simp only [List.mem_map, List.mem_range]
      constructor
      · rintro ⟨h1, h2⟩
        exact ⟨(x - 1).toNat, by omega, by omega⟩
      · rintro ⟨r, hr, rfl⟩
        constructor <;> omega
    rw [hperm.length_eq]
    simp only [List.length_map, List.length_range]
    omega

theorem auto_match_excess_witness :
    get_mapping (auto_match_filaments dialog_5_3) = [1, 2, 3, 1, 1] ∧
    ((∀ s : Int, 1 ≤ s → s ≤ dialog_5_3.m_slot_count →
        s ∈ get_mapping (auto_match_filaments dialog_5_3)) ∧
    ((((List.range dialog_5_3.m_filaments.length).filter
        (fun i : Nat => decide ((get_mapping (auto_match_filaments dialog_5_3)).getD i 0
          ∈ (get_mapping (auto_match_filaments dialog_5_3)).take i))).length : Int)
      = (dialog_5_3.m_filaments.length : Int) - dialog_5_3.m_slot_count) ∧
    ((dialog_5_3.m_filaments.length : Int)
        - ((get_mapping (auto_match_filaments dialog_5_3)).dedup.length : Int)
      = (dialog_5_3.m_filaments.length : Int) - dialog_5_3.m_slot_count)) :=
  ⟨by decide, auto_match_excess dialog_5_3 (by decide) (by decide) (by decide)⟩

/-! ## Conflicts of the default assignment -/

@[simp]
theorem conflicts_update_warnings (d : FilamentMappingDialog) :
    conflicts (update_warnings d) = conflicts d := by
  simp [conflicts, slot_usage]

/-- A residue `r` occurs more than once among `0 % S, ..., (n-1) % S` exactly
when both `r` and `r + S` are below `n`. -/
theorem one_lt_count_mod (S n r : Nat) :
    1 < ((List.range n).map (fun i : Nat => i % S)).count r ↔ r < S ∧ r + S < n := by
  rw [show (1 < ((List.range n).map (fun i : Nat => i % S)).count r)
      ↔ 2 ≤ ((List.range n).map (fun i : Nat => i % S)).count r from Iff.rfl,
    ← List.duplicate_iff_two_le_count, List.duplicate_iff_exists_distinct_get]
  constructor
  · rintro ⟨i, j, hij, hi, hj⟩
    have hjn : (j : Nat) < n := by simpa using j.isLt
    have hij' : (i : Nat) < (j : Nat) := hij
    simp only [List.get_eq_getElem, List.getElem_map, List.getElem_range] at hi hj
    by_cases hS : S = 0
    · subst hS
      simp only [Nat.mod_zero] at hi hj
      omega
    · have hSpos : 0 < S := Nat.pos_of_ne_zero hS
      have hr : r < S := by rw [hi]; exact Nat.mod_lt _ hSpos
      have e1 := Nat.div_add_mod (i : Nat) S
      have e2 := Nat.div_add_mod (j : Nat) S
      have hdiv : (i : Nat) / S < (j : Nat) / S := by
        by_contra hge
        have := Nat.mul_le_mul_left S (Nat.le_of_not_lt hge)
        omega
      have hmul := Nat.mul_le_mul_left S (Nat.succ_le_of_lt hdiv)
      rw [Nat.mul_succ] at hmul
      refine ⟨hr, ?_⟩
      omega
  · rintro ⟨hr, hrn⟩
    refine ⟨⟨r, by simp; omega⟩, ⟨r + S, by simp; omega⟩, ?_, ?_, ?_⟩
    · show r < r + S
      omega
    · simp [List.get_eq_getElem, Nat.mod_eq_of_lt hr]
    · simp [List.get_eq_getElem, Nat.mod_eq_of_lt hr]

/-- The default mapping written over natural-number residues. -/
theorem get_mapping_reset_nat (d : FilamentMappingDialog) (hsc : 1 ≤ d.m_slot_count) :
    get_mapping (reset_to_default d)
      = ((List.range d.m_slot_choices.length).map
          (fun i : Nat => i % d.m_slot_count.toNat)).map (fun r : Nat => (r : Int) + 1) := by
  rw [get_mapping_reset, List.map_map]
  apply List.map_congr_left
  intro i _
  simp only [Function.comp_apply]
  rw [tmod_natCast i _ hsc, Int.natCast_mod, Int.toNat_of_nonneg (by omega)]

/-- C8: for a slot count of at least 1, the conflict list of the default
assignment is the ascending list of slots `1 .. min(slotCount, n - slotCount)`;
it is empty when `n ≤ slotCount` and non-empty when `n > slotCount`. -/
theorem reset_conflicts (d : FilamentMappingDialog)
    (hsc : 1 ≤ d.m_slot_count)
    (hn : d.m_slot_choices.length = d.m_filaments.length) :
    conflicts (reset_to_default d)
      = (List.range (min d.m_slot_count.toNat
          (d.m_filaments.length - d.m_slot_count.toNat))).map (fun r : Nat => (r : Int) + 1) ∧
    conflicts (on_reset d) = conflicts (reset_to_default d) ∧
    ((d.m_filaments.length : Int) ≤ d.m_slot_count → conflicts (reset_to_default d) = []) ∧
    (d.m_slot_count < (d.m_filaments.length : Int) → conflicts (reset_to_default d) ≠ []) := by
  have hmain : conflicts (reset_to_default d)
      = (List.range (min d.m_slot_count.toNat
          (d.m_filaments.length - d.m_slot_count.toNat))).map (fun r : Nat => (r : Int) + 1) := by
    have hinj : Function.Injective (fun r : Nat => (r : Int) + 1) :=
      fun a b hab => by simpa using hab
    have hsorted : ((List.range (min d.m_slot_count.toNat
        (d.m_filaments.length - d.m_slot_count.toNat))).map
          (fun r : Nat => (r : Int) + 1)).Sorted (· < ·) := by
      unfold List.Sorted
      rw [List.pairwise_map]
      refine (List.pairwise_lt_range _).imp ?_
      intro a b hab
      omega
    refine List.eq_of_perm_of_sorted ?_ (conflicts_sorted _) hsorted
    rw [List.perm_ext_iff_of_nodup (conflicts_sorted _).nodup hsorted.nodup]
    intro s
    rw [mem_conflicts, get_mapping_reset_nat d hsc, hn]
    simp only [List.mem_map, List.mem_range]
    constructor
    · intro hcount
      have hmem : s ∈ ((List.range d.m_filaments.length).map
          (fun i : Nat => i % d.m_slot_count.toNat)).map (fun r : Nat => (r : Int) + 1) := by
        rw [← List.count_pos_iff]
        omega
      obtain ⟨r, _, rfl⟩ := List.mem_map.mp hmem
      rw [List.count_map_of_injective _ _ hinj, one_lt_count_mod] at hcount
      exact ⟨r, by omega, rfl⟩
    · rintro ⟨r, hr, rfl⟩
      rw [List.count_map_of_injective _ _ hinj, one_lt_count_mod]
      omega
  refine ⟨hmain, by simp [on_reset], ?_, ?_⟩
  · intro hle
    rw [hmain]
    have : min d.m_slot_count.toNat (d.m_filaments.length - d.m_slot_count.toNat) = 0 := by
      omega
    rw [this]
    rfl
  · intro hlt
    rw [hmain]
    have hpos : 0 < min d.m_slot_count.toNat (d.m_filaments.length - d.m_slot_count.toNat) := by
      omega
    intro hnil
    have hlen := congrArg List.length hnil
    simp only [List.length_map, List.length_range, List.length_nil] at hlen
    omega

theorem reset_conflicts_witness :
    (get_mapping (reset_to_default dialog_3_4) = [1, 2, 3] ∧
      conflicts (reset_to_default dialog_3_4) = [] ∧
      get_mapping (reset_to_default dialog_5_3) = [1, 2, 3, 1, 2] ∧
      conflicts (reset_to_default dialog_5_3) = [1, 2]) ∧
    (conflicts (reset_to_default dialog_5_3)
      = (List.range (min dialog_5_3.m_slot_count.toNat
          (dialog_5_3.m_filaments.length - dialog_5_3.m_slot_count.toNat))).map
            (fun r : Nat => (r : Int) + 1) ∧
    conflicts (on_reset dialog_5_3) = conflicts (reset_to_default dialog_5_3) ∧
    ((dialog_5_3.m_filaments.length : Int) ≤ dialog_5_3.m_slot_count →
      conflicts (reset_to_default dialog_5_3) = []) ∧
    (dialog_5_3.m_slot_count < (dialog_5_3.m_filaments.length : Int) →
      conflicts (reset_to_default dialog_5_3) ≠ [])) :=
  ⟨⟨by decide, by decide, by decide, by decide⟩,
    reset_conflicts dialog_5_3 (by decide) (by decide)⟩

/-! ## The mapping invariant -/

theorem wellFormed_update_warnings (d : FilamentMappingDialog) (h : WellFormed d) :
    WellFormed (update_warnings d) := by
  unfold WellFormed at h ⊢
  simpa using h

theorem wellFormed_reset (d : FilamentMappingDialog) (hsc : 1 ≤ d.m_slot_count)
    (hn : d.m_slot_choices.length = d.m_filaments.length) :
    WellFormed (reset_to_default d) := by
  have h := reset_default_bounds d hsc
  refine ⟨hsc, ?_, h⟩
  rw [reset_to_default_choices]
  simpa using hn

theorem wellFormed_auto_match (d : FilamentMappingDialog) (h : WellFormed d) :
    WellFormed (auto_match_filaments d) := by
  obtain ⟨hsc, hn, _⟩ := h
  refine ⟨hsc, ?_, ?_⟩
  · rw [auto_match_choices d hn]; simp [auto_match_filaments]
  · intro x hx
    rw [get_mapping_auto_match d hn] at hx
    obtain ⟨i, _, rfl⟩ := List.mem_map.mp hx
    show _ ∧ _ ≤ d.m_slot_count
    split_ifs with hi
    · constructor <;> omega
    · constructor <;> omega

theorem wellFormed_set_mapping (d : FilamentMappingDialog) (values : List Int)
    (h : WellFormed d) : WellFormed (set_mapping d values) := by
  obtain ⟨hsc, hn, hb⟩ := h
  refine ⟨by simpa [set_mapping] using hsc, ?_, ?_⟩
  · simpa [set_mapping, set_mapping_loop_eq] using hn
  · intro x hx
    obtain ⟨i, hi⟩ := List.mem_iff_getElem?.mp hx
    rw [get_mapping_set_mapping] at hi
    have hcount : (set_mapping d values).m_slot_count = d.m_slot_count := by
      simp [set_mapping]
    rw [hcount]
    split_ifs at hi with hc
    · cases hold : (get_mapping d)[i]? with
      | none => rw [hold] at hi; simp at hi
      | some y =>
        rw [hold] at hi
        simp only [Option.map_some', Option.some.injEq] at hi
        rw [← hi]
        exact ⟨hc.2.1, hc.2.2⟩
    · exact hb x (List.mem_iff_getElem?.mpr ⟨i, hi⟩)

theorem wellFormed_construct (fs : List ProjectFilamentInfo) (sc : Int) :
    WellFormed (construct fs sc) ∧ (construct fs sc).m_filaments = fs ∧
      (construct fs sc).m_slot_count = max 1 sc := by
  unfold construct
  refine ⟨wellFormed_update_warnings _ (wellFormed_reset _ ?_ ?_), ?_, ?_⟩
  · simp [create_ui]
  · simp [create_ui]
  · simp [reset_to_default, create_ui]
  · simp [reset_to_default, create_ui]

theorem wellFormed_apply (op : Op) (d : FilamentMappingDialog) (h : WellFormed d) :
    WellFormed (op.apply d) ∧ (op.apply d).m_filaments = d.m_filaments ∧
      (op.apply d).m_slot_count = d.m_slot_count := by
  cases op with
  | reset =>
    refine ⟨wellFormed_update_warnings _ (wellFormed_reset d h.1 h.2.1), ?_, ?_⟩ <;>
      simp [Op.apply, on_reset, reset_to_default]
  | autoMatch =>
    refine ⟨wellFormed_update_warnings _ (wellFormed_auto_match d h), ?_, ?_⟩ <;>
      simp [Op.apply, on_auto_match, auto_match_filaments]
  | setMapping values =>
    refine ⟨wellFormed_set_mapping d values h, ?_, ?_⟩ <;>
      simp [Op.apply, set_mapping]

theorem wellFormed_run (ops : List Op) :
    ∀ d : FilamentMappingDialog, WellFormed d →
      WellFormed (run ops d) ∧ (run ops d).m_filaments = d.m_filaments ∧
        (run ops d).m_slot_count = d.m_slot_count := by
  induction ops with
  | nil => intro d h; exact ⟨h, rfl, rfl⟩
  | cons op ops ih =>
    intro d h
    obtain ⟨h1, h2, h3⟩ := wellFormed_apply op d h
    obtain ⟨k1, k2, k3⟩ := ih (op.apply d) h1
    refine ⟨k1, ?_, ?_⟩
    · show (run ops (op.apply d)).m_filaments = _
      rw [k2, h2]
    · show (run ops (op.apply d)).m_slot_count = _
      rw [k3, h3]

/-- C6: starting from the constructed dialog with `n` filaments and a slot
count of at least 1, after any finite sequence of reset, auto-match and
`set_mapping` commands (with arbitrary integer arguments) `get_mapping` returns
exactly `n` entries, each in `[1, slotCount]`. -/
theorem mapping_invariant (project_filaments : List ProjectFilamentInfo) (slot_count : Int)
    (hsc : 1 ≤ slot_count) (ops : List Op) :
    (get_mapping (run ops (construct project_filaments slot_count))).length
      = project_filaments.length ∧
    ∀ x ∈ get_mapping (run ops (construct project_filaments slot_count)),
      1 ≤ x ∧ x ≤ slot_count := by
  obtain ⟨hwf, hfs, hcount⟩ := wellFormed_construct project_filaments slot_count
  obtain ⟨⟨_, hlen, hb⟩, hfs', hcount'⟩ := wellFormed_run ops _ hwf
  rw [hcount', hcount, max_eq_right hsc] at hb
  refine ⟨?_, hb⟩
  rw [length_get_mapping, hlen, hfs', hfs]

theorem mapping_invariant_witness :
    get_mapping (run [Op.setMapping [7, 0, 2, -3, 3, 1, 1], Op.autoMatch, Op.setMapping [2],
        Op.reset, Op.setMapping [3, 3]]
      (construct [sample_filament 0, sample_filament 1, sample_filament 2] 3)) = [3, 3, 3] ∧
    ((get_mapping (run [Op.setMapping [7, 0, 2, -3, 3, 1, 1], Op.autoMatch, Op.setMapping [2],
        Op.reset, Op.setMapping [3, 3]]
      (construct [sample_filament 0, sample_filament 1, sample_filament 2] 3))).length
      = [sample_filament 0, sample_filament 1, sample_filament 2].length ∧
    ∀ x ∈ get_mapping (run [Op.setMapping [7, 0, 2, -3, 3, 1, 1], Op.autoMatch, Op.setMapping [2],
        Op.reset, Op.setMapping [3, 3]]
      (construct [sample_filament 0, sample_filament 1, sample_filament 2] 3)),
      1 ≤ x ∧ x ≤ 3) :=
  ⟨by decide, mapping_invariant [sample_filament 0, sample_filament 1, sample_filament 2] 3
    (by decide) _⟩

/-! ## Construction with a non-positive slot count -/

/-- C7 as stated fails on the code: constructing the dialog for two filaments
with slot count `0` does not return `InvalidInput`; it yields a dialog whose
mapping is `[1, 1]`. -/
theorem init_nonpositive_slot_count_counterexample :
    init_dialog [sample_filament 0, sample_filament 1] 0 ≠ Except.error CoreError.InvalidInput ∧
    ∃ d, init_dialog [sample_filament 0, sample_filament 1] 0 = Except.ok d ∧
      d.m_slot_count = 1 ∧ get_mapping d = [1, 1] :=
  ⟨by simp [init_dialog], _, rfl, by decide, by decide⟩

/-- C7, amended: construction with a slot count below 1 does not fail; the slot
count is clamped to 1 and the mapping has one entry per filament, each equal to
slot 1. -/
theorem init_nonpositive_slot_count_clamped (descriptors : List ProjectFilamentInfo)
    (slotCount : Int) (hsc : slotCount < 1) :
    ∃ d, init_dialog descriptors slotCount = Except.ok d ∧
      d.m_slot_count = 1 ∧ get_mapping d = List.replicate descriptors.length 1 := by
  refine ⟨construct descriptors slotCount, rfl, ?_, ?_⟩
  · rw [(wellFormed_construct descriptors slotCount).2.2]
    exact max_eq_left (by omega)
  · have hcount : (create_ui
        { m_filaments := descriptors, m_slot_count := max 1 slotCount,
          m_slot_choices := [], m_warning_label := {} }).m_slot_count = 1 := by
      simp only [create_ui]
      exact max_eq_left (by omega)
    unfold construct
    rw [get_mapping_update_warnings, get_mapping_reset, hcount]
    simp only [create_ui, List.length_map]
    apply List.ext_getElem?
    intro j
    simp only [List.getElem?_map, List.getElem?_replicate]
    by_cases hj : j < descriptors.length
    · simp [hj, List.getElem?_range hj, tmod_natCast j 1 (le_refl 1)]
    · have : (List.range descriptors.length)[j]? = none :=
        List.getElem?_eq_none (by simp; omega)
      simp [hj, this]

theorem init_nonpositive_slot_count_clamped_witness :
    ∃ d, init_dialog [sample_filament 0, sample_filament 1, sample_filament 2] (-4)
        = Except.ok d ∧
      d.m_slot_count = 1 ∧
      get_mapping d
        = List.replicate [sample_filament 0, sample_filament 1, sample_filament 2].length 1 :=
  init_nonpositive_slot_count_clamped
    [sample_filament 0, sample_filament 1, sample_filament 2] (-4) (by decide)

end Slic3r.GUI
